import Mathlib

/-!
Verification of the pomoc terminal pomodoro timer against its specification.

The development shallowly embeds the C sources:
* `terminal.c` (string primitives, word wrap, window buffer, key decoding,
  dialog focus machine, RGB/HSL conversion), and
* `main.c` (phase state machine, save/load of the session state).

C strings are modelled as `List Char` holding the characters strictly before
the NUL terminator; the byte at index `length` is the terminator and indices
beyond it are out of bounds of the logical string.  C `int` values are `Int`,
`double` arithmetic is modelled exactly with rational pairs (see the color
section; the concrete inputs used in the theorems are far from any rounding
discontinuity).  Fallible operations
(out-of-bounds accesses, failed copies) return `Option`/explicit result
constructors.  Loops are embedded as structural recursion on an explicit
iteration budget that provably dominates the number of iterations of the C
loop (each loop strictly increases its cursor), so that all definitions
compute.
-/

/-! ### String primitives (terminal.c) -/

/-- The byte of the C string `s` at index `i`: a character of the string for
`i < s.length`, the NUL terminator at `i = s.length`, and `none` (an
out-of-bounds read past the terminator) beyond.  List entries are assumed to
be non-NUL characters, as in any C string. -/
def byteAt (s : List Char) (i : Nat) : Option Char :=
  if h : i < s.length then some (s.get ⟨i, h⟩)
  else if i = s.length then some (Char.ofNat 0)
  else none

/-- Loop of `_stringLength` (terminal.c): `count` starts at 0 and the test is
`s[++count] == '\0'`, so the scan inspects indices 1, 2, … and never index 0.
The returned value is the index of the first NUL found (the `count--` in
`return count--` is a post-decrement, so the undecremented value is
returned).  A read past the terminator yields `none`.  The iteration budget
is structural fuel; `s.length + 2` steps always suffice because the scan
stops at the terminator (index `s.length`) or goes out of bounds just past
it. -/
def cStringLengthGo (s : List Char) : Nat → Nat → Option Nat
  | 0, _ => none
  | fuel + 1, i =>
    match byteAt s i with
    | none => none
    | some c => if c = Char.ofNat 0 then some i else cStringLengthGo s fuel (i + 1)

/-- `_stringLength` (terminal.c): scans from index 1 upward for the NUL
terminator.  `none` models the out-of-bounds read that occurs when the
1-byte buffer of the empty string is exceeded. -/
def cStringLength (s : List Char) : Option Nat :=
  cStringLengthGo s (s.length + 2) 1

/-- On every nonempty NUL-free string, `_stringLength` returns the length of
the string, with all reads in bounds.  (The empty-string behaviour is the
subject of a separate claim.) -/
theorem cStringLength_eq_length (s : List Char) (hne : s ≠ [])
    (hnul : ∀ c ∈ s, c ≠ Char.ofNat 0) : cStringLength s = some s.length := by
  have key : ∀ fuel i, 1 ≤ i → i ≤ s.length → s.length + 1 - i ≤ fuel →
      cStringLengthGo s fuel i = some s.length := by
    intro fuel
    induction fuel with
    | zero =>
      intro i h1 h2 h3
      omega
    | succ n ih =>
      intro i h1 h2 h3
      rcases eq_or_lt_of_le h2 with he | hlt
      · subst he
        simp [cStringLengthGo, byteAt]
      · have hb : byteAt s i = some (s.get ⟨i, hlt⟩) := by
          simp [byteAt, hlt]
        have hcne : s.get ⟨i, hlt⟩ ≠ Char.ofNat 0 := hnul _ (List.get_mem s i hlt)
        simp only [cStringLengthGo, hb, if_neg hcne]
        exact ih (i + 1) (by omega) (by omega) (by omega)
  have hlen : 1 ≤ s.length := by
    cases s with
    | nil => exact absurd rfl hne
    | cons a t => simp
  exact key (s.length + 2) 1 le_rfl hlen (by omega)

/-- `_stringCopyNBytes` (terminal.c).  Copies `source[start ... end]`
(inclusive) into a fresh buffer, NUL-terminating it; `end = -1` or
`end > length` is clamped to the string length, in which case the copied
range ends at the terminator.  Returns `none` exactly when the source
returns `-1` (bad `start`, or `start >= end`), in which case the destination
buffer is left unchanged (stale). -/
def stringCopyNBytes (s : List Char) (start endi : Int) : Option (List Char) :=
  let len : Int := s.length
  if start < 0 ∨ start > len then none
  else
    let e : Int := if endi > len ∨ endi = -1 then len else endi
    if start ≥ e then none
    else some ((s.drop start.toNat).take (e - start + if e = len then 0 else 1).toNat)

/-- `_stringCopy` (terminal.c): copy the whole string. -/
def stringCopy (s : List Char) : Option (List Char) :=
  stringCopyNBytes s 0 (-1)

/-- Whether the byte at index `i` stops the backward space scan of
`_stringFindFirstSpace`: a space character, or the NUL terminator at index
`s.length`. -/
def spaceHit (s : List Char) (i : Nat) : Bool :=
  i = s.length || s.get? i = some ' '

/-- Backward scan of `_stringFindFirstSpace` from index `i` down to 0,
returning the first index that holds a space or the terminator, `-1` if
none. -/
def findSpaceGo (s : List Char) : Nat → Int
  | 0 => if spaceHit s 0 then 0 else -1
  | i + 1 => if spaceHit s (i + 1) then ((i : Int) + 1) else findSpaceGo s i

/-- `_stringFindFirstSpace` (terminal.c): finds the last index `≤ start`
holding a space (the NUL terminator also stops the scan, because the test is
`s[i] == ' ' || s[i] == '\0'`).  `start = -1` means the end of the string.

The source scans the raw buffer, so for `start` beyond the terminator it
reads stale bytes; any hit there lies at an index `≥ length` and the callers
(the wrap loop) treat every such index identically to a terminator hit, so
the embedding clamps the scan start to the terminator index. -/
def stringFindFirstSpace (s : List Char) (start : Int) : Int :=
  let len : Int := s.length
  let st : Int := if start = -1 then len else start
  if st < 0 then -1
  else findSpaceGo s (min st len).toNat

/-- Index of the first non-space character of `s` — `start` in `_stringTrim`
(terminal.c); 0 when the string is all spaces. -/
def trimStartIdx (s : List Char) : Nat :=
  match s.findIdx? (fun c => c ≠ ' ') with
  | some i => i
  | none => 0

/-- The `end` computed by `_stringTrim` (terminal.c): its loop scans `i` from
`len - 1` down to 1 testing `source[i - 1] != ' '`, i.e. it finds the last
non-space among indices `0 … len - 2` and sets `end` to the index after it;
if there is none, `end` keeps its initial value `len`.  Note the copied
range `start … end` is inclusive, so one character after the found
non-space is retained. -/
def trimEndIdx (s : List Char) : Nat :=
  match (s.dropLast).reverse.findIdx? (fun c => c ≠ ' ') with
  | some k => s.dropLast.length - k
  | none => s.length

/-- `_stringTrim` (terminal.c).  The trim is performed in place
(`dest == source`), so a failed copy (only possible for the empty string,
whose length scan is itself out of bounds) leaves the string unchanged. -/
def stringTrim (s : List Char) : List Char :=
  match stringCopyNBytes s (trimStartIdx s) (trimEndIdx s) with
  | some t => t
  | none => s

/-! ### Word wrap (`_windowLinesWrap`, terminal.c) -/

/-- One pass of the inner `while (current_pos < len)` loop of
`_windowLinesWrap` (terminal.c), emitting the display lines produced for a
single over-long buffered line.  Each element is the write performed into
the next display row: `some seg` when `_stringCopyNBytes` succeeds, `none`
when it fails (returns `-1`) and the row keeps its stale contents.  Both
branches set the break position `e` and then continue at `e + 2`
(`current_pos += end - current_pos + 2`): when no space is found at or after
`current_pos` the whole remainder is taken (`end = len`), otherwise the
break excludes the space (`end--`).  The fuel dominates the iteration count
because `e + 2 ≥ current_pos + 1` on every branch. -/
def wrapGo (s : List Char) (width : Int) : Nat → Int → List (Option (List Char))
  | 0, _ => []
  | fuel + 1, cp =>
    if cp < (s.length : Int) then
      let j := stringFindFirstSpace s (cp + width)
      let e : Int := if j = -1 ∨ j < cp then (s.length : Int) else j - 1
      stringCopyNBytes s cp e :: wrapGo s width fuel (e + 2)
    else []

/-- The segmentation `_windowLinesWrap` produces for one line whose (trimmed)
length exceeds the interior width. -/
def wrapSegments (s : List Char) (width : Int) : List (Option (List Char)) :=
  wrapGo s width (s.length + 1) 0

/-- The display rows `_windowLinesWrap` writes for one buffered line: the
line is trimmed in place, then segmented if longer than the interior width
and copied whole otherwise. -/
def wrapLine (s : List Char) (width : Int) : List (Option (List Char)) :=
  let t := stringTrim s
  if (t.length : Int) > width then wrapSegments t width
  else [stringCopy t]

/-- The greedy reference segmentation, following the spec's words: scan
backward from `start + maxWidth` for the nearest space; if found, break
there (excluding the space) and resume after it; if not found, break
exactly at the width boundary.  (Second definition for the refinement
comparison of the word-wrap claim; written from the spec, not the code.) -/
def greedyFindSpaceGo (s : List Char) : Nat → Nat → Option Nat
  | 0, i => if s.get? i = some ' ' then some i else none
  | d + 1, i =>
    if s.get? i = some ' ' then some i else greedyFindSpaceGo s d (i - 1)

/-- Backward scan for the spec's greedy wrap: the nearest space at an index
in `lo … hi`, scanning from `hi` downward. -/
def greedyFindSpace (s : List Char) (lo hi : Nat) : Option Nat :=
  greedyFindSpaceGo s (hi - lo) hi

/-- Greedy wrap of the spec (`wrap(line, maxWidth)` in §4.2): reference
algorithm, not the code. -/
def greedyWrapGo (s : List Char) (w : Nat) : Nat → Nat → List (List Char)
  | 0, _ => []
  | fuel + 1, cp =>
    if s.length ≤ cp then []
    else if s.length - cp ≤ w then [s.drop cp]
    else
      match greedyFindSpace s cp (cp + w) with
      | some j => (s.drop cp).take (j - cp) :: greedyWrapGo s w fuel (j + 1)
      | none => (s.drop cp).take w :: greedyWrapGo s w fuel (cp + w)

/-- The spec's greedy word wrap of a whole line. -/
def greedyWrapSpec (s : List Char) (w : Nat) : List (List Char) :=
  greedyWrapGo s w (s.length + 1) 0


/-! ### Window line buffer (terminal.h / terminal.c) -/

/-- `MAX_LINES` (terminal.h): the number of rows of a window's
`text_buffer[MAX_LINES][MAX_WIDTH]` and `text[MAX_LINES][MAX_WIDTH]`
arrays; valid row indices are `0 … MAX_LINES - 1`. -/
def MAX_LINES : Nat := 10

/-- `MAX_WIDTH` (terminal.h): the byte size of each row, which is also what
`windowAddLine` returns on success (`sizeof(w->text_buffer[...])`). -/
def MAX_WIDTH : Nat := 250

/-- Result of `windowAddLine`: the error return `-1`, a successful append
(carrying the new buffer contents; the source returns `MAX_WIDTH`), or an
out-of-bounds write into a row at an index `≥ MAX_LINES`, which is undefined
behaviour in the source. -/
inductive AddLineResult where
  | err
  | oob
  | ok (buf : List (List Char))
deriving DecidableEq, Repr

/-- `windowAddLine` (terminal.c).  The buffer is the list of stored lines, so
`buf.length` is the `w->lines` counter.  The source checks
`w->lines > MAX_LINES` and then writes `w->text_buffer[w->lines]`; that row
exists only when `w->lines < MAX_LINES`, so the write at
`w->lines = MAX_LINES` goes one row past the array. -/
def windowAddLine (buf : List (List Char)) (line : List Char) : AddLineResult :=
  if buf.length > MAX_LINES then .err
  else if buf.length < MAX_LINES then .ok (buf ++ [line])
  else .oob

/-- The display rows written by the per-line loop of `_windowLinesWrap`
(terminal.c) over the whole buffer: each buffered line is trimmed and
wrapped (or copied through) in order, the global row counter `lines_num`
advancing across lines, so the writes concatenate.  The row index of the
`k`-th element is `k`; the arrays have `MAX_LINES` rows, so any element at
an index `≥ MAX_LINES` is a write (or, for a failed copy, a subsequent
copy-back) past the array. -/
def windowLinesWrapWrites (bufLines : List (List Char)) (width : Int) :
    List (Option (List Char)) :=
  (bufLines.map (fun l => wrapLine l width)).flatten

/-- Outcome of `_windowLinesWrap`: the display-row writes, the final
`w->lines`, and the final `w->size.height`. -/
structure WrapOutcome where
  writes : List (Option (List Char))
  finalLines : Int
  finalHeight : Int
deriving DecidableEq, Repr

/-- `_windowLinesWrap` (terminal.c) at the window level: wrap every buffered
line with the interior width `size.width - 2·padding - 2`, then either grow
the height (`auto_height`) or clamp the stored line count to the interior
height — the clamping happens only after all rows have already been
written. -/
def windowLinesWrapModel (bufLines : List (List Char)) (widthTotal padding height : Int)
    (autoHeight : Bool) : WrapOutcome :=
  let width := widthTotal - 2 * padding - 2
  let ws := windowLinesWrapWrites bufLines width
  let n : Int := ws.length
  if n > height - 2 ∧ autoHeight then ⟨ws, n, n + 2⟩
  else if n > height - 2 then ⟨ws, height - 2, height⟩
  else ⟨ws, n, height⟩

/-! ### Key decoding (`poll_special_keypress`, terminal.c) -/

/-- The loop of `poll_special_keypress` (terminal.c) over a byte stream.
`poll_keypress` yields the next raw byte and `0` when no byte is available,
which ends the `while ((key = poll_keypress()) > 0)` loop.  `status` holds
the escape-sequence state (bit 0: ESC seen, bit 1: `[` seen), `pressed` the
result mask; as soon as any bit of `pressed` is set the loop returns. -/
def pollSpecialGo : List Nat → Nat → Nat → Nat
  | [], _, pressed => pressed
  | b :: rest, status, pressed =>
    if b = 0 then pressed
    else
      let sp :=
        if b = 27 then (status ||| 1, pressed)
        else if b = 91 ∧ status &&& 1 ≠ 0 then (status ||| 2, pressed)
        else if 65 ≤ b ∧ b ≤ 68 ∧ status &&& 2 ≠ 0 then
          let pr := pressed |||
            (if b = 65 then 1 else if b = 66 then 2 else if b = 67 then 4 else 8)
          (status &&& 240, pr &&& 15)
        else
          (0, pressed |||
            (if b = 9 then 16 else if b = 10 then 32
             else if b = 32 then 64 else if b = 127 then 128 else 0))
      if sp.2 ≠ 0 then sp.2 else pollSpecialGo rest sp.1 sp.2

/-- `poll_special_keypress` (terminal.c) on a byte stream, starting in the
idle state.  The returned mask has one bit per named key (bits 0–7: the two
ESC `[` letters 65–68 and tab/enter/space/backspace). -/
def pollSpecialKeypress (bytes : List Nat) : Nat :=
  pollSpecialGo bytes 0 0

/-! ### Dialog focus machine (`dialogWaitResponse`, terminal.c) -/

/-- One reaction of `dialogWaitResponse` (terminal.c) to a polled mask:
either the loop continues with the (possibly updated) active-button index,
or Enter returns that index. -/
inductive DialogStep where
  | cont (active : Nat)
  | answer (active : Nat)
deriving DecidableEq, Repr

/-- The body of the `while (1)` loop of `dialogWaitResponse` (terminal.c):
mask bit 2 (the byte `0x43` = ESC `[` C, the ANSI cursor-forward / Right
arrow sequence) selects button 1, bit 3 (`0x44` = ESC `[` D, cursor-back /
Left arrow) selects button 0, bit 4 (Tab) flips the index
(`!d->active_button`), bit 5 (Enter) returns the current index, and any
other mask leaves the index unchanged. -/
def dialogStep (special : Nat) (active : Nat) : DialogStep :=
  if special &&& 4 ≠ 0 then .cont 1
  else if special &&& 8 ≠ 0 then .cont 0
  else if special &&& 16 ≠ 0 then .cont (if active = 0 then 1 else 0)
  else if special &&& 32 ≠ 0 then .answer active
  else .cont active

/-- The button index carried by a `DialogStep`. -/
def stepIndex : DialogStep → Nat
  | .cont x => x
  | .answer x => x

/-! ### Phase state machine (`next_phase`, main.c) -/

/-- The three phases built by `init_phases` (main.c). -/
inductive PhaseId where
  | study
  | shortBreak
  | longBreak
deriving DecidableEq, Repr

/-- The `id` field of each phase (`init_phases`, main.c). -/
def phaseIdNum : PhaseId → Int
  | .study => 0
  | .shortBreak => 1
  | .longBreak => 2

/-- The `next` pointer of each phase (`init_phases`, main.c). -/
def phaseNext : PhaseId → PhaseId
  | .study => .shortBreak
  | .shortBreak => .study
  | .longBreak => .study

/-- The `next_after` pointer of each phase (`init_phases`, main.c): only the
study phase sets it; the designated initializers of the two breaks leave it
`NULL` (zero-filled), modelled as `none`. -/
def phaseNextAfter : PhaseId → Option PhaseId
  | .study => some .longBreak
  | .shortBreak => none
  | .longBreak => none

/-- The `is_study` flag of each phase (`init_phases`, main.c). -/
def phaseIsStudy : PhaseId → Bool
  | .study => true
  | .shortBreak => false
  | .longBreak => false

/-- The `repetitions` field of each phase (`init_phases`, main.c): the study
phase carries the sessions-before-long-break setting, both breaks carry the
literal 0. -/
def phaseRepetitions (sessions : Int) : PhaseId → Int
  | .study => sessions
  | .shortBreak => 0
  | .longBreak => 0

/-- The session state mutated by `next_phase` and persisted by
`save_savefile` (the relevant fields of `Parameters` plus the per-phase
`completed` and `started` fields of the `Phase` structs, main.c). -/
structure TimerState where
  currentPhase : PhaseId
  completed : PhaseId → Int
  started : PhaseId → Int
  studyPhases : Int
  phaseElapsed : Int
  studyElapsed : Int
  previousElapsed : Int

/-- `next_phase` (main.c): increment `completed` of the current phase; if it
is a study phase, count it and fold `phase_elapsed` into
`previous_elapsed`; then move to `next_after` (resetting `completed`) when
`completed >= repetitions && repetitions`, and to `next` otherwise; finally
`reset_current_time` stamps the new phase's `started` with the current
time.  Following the breaks' `NULL` `next_after` would be undefined
behaviour, modelled as `none` (it is provably unreachable because their
`repetitions` is 0). -/
def nextPhase (sessions now : Int) (p : TimerState) : Option TimerState :=
  let cur := p.currentPhase
  let completed1 := Function.update p.completed cur (p.completed cur + 1)
  let p1 : TimerState :=
    { p with
      completed := completed1
      studyPhases := if phaseIsStudy cur then p.studyPhases + 1 else p.studyPhases
      previousElapsed :=
        if phaseIsStudy cur then p.previousElapsed + p.phaseElapsed
        else p.previousElapsed }
  if completed1 cur ≥ phaseRepetitions sessions cur ∧ phaseRepetitions sessions cur ≠ 0 then
    match phaseNextAfter cur with
    | none => none
    | some nxt =>
        some { p1 with
          completed := Function.update completed1 cur 0
          currentPhase := nxt
          started := Function.update p1.started nxt now }
  else
    some { p1 with
      currentPhase := phaseNext cur
      started := Function.update p1.started (phaseNext cur) now }

/-! ### Save / load of the session state (main.c) -/

/-- The record `save_savefile` (main.c) writes after the date line: phase
elapsed, total study elapsed, total study phases, current phase id, current
phase completed, current phase started.  The numeric lines round-trip
exactly through the decimal text the source uses (`sprintf "%i"` / `atoi`),
so they are modelled as the integers themselves; the date line is covered by
the same-calendar-date hypothesis of the round-trip claim. -/
structure SaveFile where
  phaseElapsed : Int
  studyElapsed : Int
  studyPhases : Int
  phaseId : Int
  completed : Int
  started : Int
deriving DecidableEq, Repr

/-- `save_savefile` (main.c). -/
def saveSavefile (p : TimerState) : SaveFile :=
  { phaseElapsed := p.phaseElapsed
    studyElapsed := p.studyElapsed
    studyPhases := p.studyPhases
    phaseId := phaseIdNum p.currentPhase
    completed := p.completed p.currentPhase
    started := p.started p.currentPhase }

/-- `load_savefile` (main.c), given that the file exists and its date line
matches today (the only case the claim concerns; `check_savefile() == -1`
would otherwise abort earlier).  Returns the status code and the resulting
state, including the partial mutations performed before an abort.

The source's phase lookup is

  for (int i = 0; i < 3; i++) { if (phases[i].id == num_buffer) { ...; break; } return -6; }

with `return -6` inside the loop body, so only `phases[0]` (the study phase,
id 0) is ever examined: any other saved id aborts with `-6` after the three
numeric fields have already been stored. -/
def loadSavefile (f : SaveFile) (p : TimerState) : Int × TimerState :=
  let p3 : TimerState :=
    { p with
      phaseElapsed := f.phaseElapsed
      previousElapsed := f.studyElapsed
      studyPhases := f.studyPhases }
  if phaseIdNum .study = f.phaseId then
    let p4 : TimerState := { p3 with currentPhase := .study }
    (0, { p4 with completed := Function.update p4.completed .study f.completed })
  else (-6, p3)

/-! ### Color model (terminal.c)

The conversions compute with C `double`s.  They are modelled here with exact
rational arithmetic over explicit numerator/denominator pairs (all
denominators positive by construction), so every operation reduces in the
kernel; the concrete inputs appearing in the theorems are far from any
discontinuity of the algorithm, where IEEE rounding of the same expressions
could differ from the exact value.
-/

/-- An exact rational: `num / den` with `den > 0` by construction. -/
structure Frac where
  num : Int
  den : Int
deriving DecidableEq, Repr

/-- The rational `n / 1`. -/
def fOfInt (n : Int) : Frac := ⟨n, 1⟩

/-- Exact addition. -/
def fAdd (x y : Frac) : Frac := ⟨x.num * y.den + y.num * x.den, x.den * y.den⟩

/-- Exact subtraction. -/
def fSub (x y : Frac) : Frac := ⟨x.num * y.den - y.num * x.den, x.den * y.den⟩

/-- Exact multiplication. -/
def fMul (x y : Frac) : Frac := ⟨x.num * y.num, x.den * y.den⟩

/-- Exact reciprocal, keeping the denominator positive (never applied to 0 on
the paths the conversions take). -/
def fInv (x : Frac) : Frac :=
  if x.num < 0 then ⟨-x.den, -x.num⟩
  else if x.num = 0 then ⟨0, 1⟩
  else ⟨x.den, x.num⟩

/-- Exact division. -/
def fDiv (x y : Frac) : Frac := fMul x (fInv y)

/-- Exact strict comparison (cross-multiplication; denominators positive). -/
def fLt (x y : Frac) : Bool := x.num * y.den < y.num * x.den

/-- Exact equality test (cross-multiplication; denominators positive). -/
def fEq (x y : Frac) : Bool := x.num * y.den = y.num * x.den

/-- `_max` (terminal.c): `if (a > b) return a; return b`. -/
def fMax (x y : Frac) : Frac := if fLt y x then x else y

/-- `_min` (terminal.c): `if (a < b) return a; return b`. -/
def fMin (x y : Frac) : Frac := if fLt x y then x else y

/-- `_max_3` (terminal.c). -/
def fMax3 (a b c : Frac) : Frac := fMax (fMax a b) c

/-- `_min_3` (terminal.c). -/
def fMin3 (a b c : Frac) : Frac := fMin (fMin a b) c

/-- C `(int)` conversion of a `double`: truncation toward zero.  With a
positive denominator, Lean's `Int` division of `num` by `den` also rounds
toward zero. -/
def cTrunc (x : Frac) : Int := x.num / x.den

/-- `_clamp` (terminal.c) on the integer channel values (the `double`
round-trip through `_min`/`_max` is exact on them). -/
def intClamp (val lo hi : Int) : Int := min (max val lo) hi

/-- An RGB color, channels as stored in the `RGB` struct (terminal.h). -/
structure RGBc where
  R : Int
  G : Int
  B : Int
deriving DecidableEq, Repr

/-- An HSL color, channels as stored in the `HSL` struct (terminal.h). -/
structure HSLc where
  H : Int
  S : Int
  L : Int
deriving DecidableEq, Repr

/-- `createRGBcolor` (terminal.c): clamps each channel to 0…255. -/
def createRGBcolor (r g b : Int) : RGBc :=
  ⟨intClamp r 0 255, intClamp g 0 255, intClamp b 0 255⟩

/-- `createHSLcolor` (terminal.c): clamps H to 0…359 and S, L to 0…99. -/
def createHSLcolor (h s l : Int) : HSLc :=
  ⟨intClamp h 0 359, intClamp s 0 99, intClamp l 0 99⟩

/-- `_hue_to_rgb` (terminal.c), with the two `t` adjustments applied in
sequence as in the source. -/
def hueToRgbAux (p q t : Frac) : Frac :=
  let t1 := if fLt t (fOfInt 0) then fAdd t (fOfInt 1) else t
  let t2 := if fLt (fOfInt 1) t1 then fSub t1 (fOfInt 1) else t1
  if fLt t2 ⟨1, 6⟩ then fAdd p (fMul (fMul (fSub q p) (fOfInt 6)) t2)
  else if fLt t2 ⟨1, 2⟩ then q
  else if fLt t2 ⟨2, 3⟩ then fAdd p (fMul (fMul (fSub q p) (fSub ⟨2, 3⟩ t2)) (fOfInt 6))
  else p

/-- `HSLtoRGB` (terminal.c).  The channel results are converted to `int`
(truncation toward zero) at the `createRGBcolor` call, whose parameters are
`int`. -/
def HSLtoRGB (color : HSLc) : RGBc :=
  let h := fDiv (fOfInt color.H) (fOfInt 360)
  let s := fDiv (fOfInt color.S) (fOfInt 100)
  let l := fDiv (fOfInt color.L) (fOfInt 100)
  if fEq s (fOfInt 0) then
    createRGBcolor (cTrunc (fMul l (fOfInt 255))) (cTrunc (fMul l (fOfInt 255)))
      (cTrunc (fMul l (fOfInt 255)))
  else
    let q :=
      if fLt l ⟨1, 2⟩ then fMul l (fAdd (fOfInt 1) s)
      else fSub (fAdd l s) (fMul l s)
    let p := fSub (fMul (fOfInt 2) l) q
    let r := hueToRgbAux p q (fAdd h ⟨1, 3⟩)
    let g := hueToRgbAux p q h
    let b := hueToRgbAux p q (fSub h ⟨1, 3⟩)
    createRGBcolor (cTrunc (fMul r (fOfInt 255))) (cTrunc (fMul g (fOfInt 255)))
      (cTrunc (fMul b (fOfInt 255)))

/-- `RGBtoHSL` (terminal.c).  In the chromatic case the hue is taken from
whichever channel is maximal; the final `else if (max == b)` of the source
is the only remaining possibility (`max` is one of the three channels), so
it is the last branch here. -/
def RGBtoHSL (color : RGBc) : HSLc :=
  let r := fDiv (fOfInt color.R) (fOfInt 255)
  let g := fDiv (fOfInt color.G) (fOfInt 255)
  let b := fDiv (fOfInt color.B) (fOfInt 255)
  let mx := fMax3 r g b
  let mn := fMin3 r g b
  let l := fDiv (fAdd mx mn) (fOfInt 2)
  if fEq mx mn then
    createHSLcolor (cTrunc (fMul (fOfInt 0) (fOfInt 60))) (cTrunc (fMul (fOfInt 0) (fOfInt 100)))
      (cTrunc (fMul l (fOfInt 100)))
  else
    let d := fSub mx mn
    let s :=
      if fLt ⟨1, 2⟩ l then fDiv d (fSub (fSub (fOfInt 2) mx) mn)
      else fDiv d (fAdd mx mn)
    let h :=
      if fEq mx r then fAdd (fDiv (fSub g b) d) (if fLt g b then fOfInt 6 else fOfInt 0)
      else if fEq mx g then fAdd (fDiv (fSub b r) d) (fOfInt 2)
      else fAdd (fDiv (fSub r g) d) (fOfInt 4)
    createHSLcolor (cTrunc (fMul h (fOfInt 60))) (cTrunc (fMul s (fOfInt 100)))
      (cTrunc (fMul l (fOfInt 100)))


/-! ### Supporting lemmas for the word-wrap claims -/

/-- The backward space scan never returns an index above its starting
point. -/
theorem findSpaceGo_le (s : List Char) : ∀ i : Nat, findSpaceGo s i ≤ (i : Int) := by
  intro i
  induction i with
  | zero =>
    simp only [findSpaceGo]
    split <;> omega
  | succ n ih =>
    simp only [findSpaceGo]
    split
    · omega
    · push_cast
      omega

/-- `_stringFindFirstSpace` never returns an index above a nonnegative
starting position. -/
theorem stringFindFirstSpace_le (s : List Char) (start : Int) (h0 : 0 ≤ start) :
    stringFindFirstSpace s start ≤ start := by
  unfold stringFindFirstSpace
  have hne : ¬ start = -1 := by omega
  have hnlt : ¬ start < 0 := by omega
  simp only [hne, if_false, hnlt]
  have hmin : (0 : Int) ≤ min start (s.length : Int) := by
    have : (0 : Int) ≤ (s.length : Int) := by positivity
    omega
  have := findSpaceGo_le s (min start (s.length : Int)).toNat
  have hcast : ((min start (s.length : Int)).toNat : Int) = min start (s.length : Int) :=
    Int.toNat_of_nonneg hmin
  rw [hcast] at this
  omega

/-- On a string without spaces, the backward scan strictly inside the string
finds nothing. -/
theorem findSpaceGo_no_space (s : List Char) (hns : ∀ c ∈ s, c ≠ ' ') :
    ∀ i : Nat, i < s.length → findSpaceGo s i = -1 := by
  intro i
  induction i with
  | zero =>
    intro hi
    have hhit : spaceHit s 0 = false := by
      simp only [spaceHit, Bool.or_eq_false_iff]
      constructor
      · simp only [decide_eq_false_iff_not]
        omega
      · simp only [decide_eq_false_iff_not]
        intro hsp
        exact hns ' ' (List.get?_mem hsp) rfl
    simp [findSpaceGo, hhit]
  | succ n ih =>
    intro hi
    have hhit : spaceHit s (n + 1) = false := by
      simp only [spaceHit, Bool.or_eq_false_iff]
      constructor
      · simp only [decide_eq_false_iff_not]
        omega
      · simp only [decide_eq_false_iff_not]
        intro hsp
        exact hns ' ' (List.get?_mem hsp) rfl
    simp only [findSpaceGo, hhit, Bool.false_eq_true, if_false]
    exact ih (by omega)

/-- When `0 ≤ cp < e < length`, the copy of `s[cp … e]` succeeds and has
exactly `e - cp + 1` characters. -/
theorem stringCopyNBytes_inner (s : List Char) (cp e : Int) (h0 : 0 ≤ cp) (hce : cp < e)
    (hel : e < (s.length : Int)) :
    ∃ t, stringCopyNBytes s cp e = some t ∧ ((t.length : Int) = e - cp + 1) := by
  unfold stringCopyNBytes
  have hb : ¬ (cp < 0 ∨ cp > (s.length : Int)) := by omega
  have hcl : ¬ (e > (s.length : Int) ∨ e = -1) := by omega
  have hge : ¬ cp ≥ e := by omega
  simp only [hb, if_false, hcl, hge]
  refine ⟨_, rfl, ?_⟩
  have hne : ¬ e = (s.length : Int) := by omega
  simp only [hne, if_false]
  rw [List.length_take, List.length_drop]
  have h1 : ((e - cp + 1).toNat : Int) = e - cp + 1 := Int.toNat_of_nonneg (by omega)
  have h2 : (cp.toNat : Int) = cp := Int.toNat_of_nonneg h0
  omega
/-- The backward space scan returns `-1` or the index of an actual hit. -/
theorem findSpaceGo_hit (s : List Char) :
    ∀ i : Nat, findSpaceGo s i = -1 ∨
      (0 ≤ findSpaceGo s i ∧ spaceHit s (findSpaceGo s i).toNat = true) := by
  intro i
  induction i with
  | zero =>
    simp only [findSpaceGo]
    split
    · rename_i h
      exact Or.inr ⟨le_refl 0, by simpa using h⟩
    · exact Or.inl rfl
  | succ n ih =>
    simp only [findSpaceGo]
    split
    · rename_i h
      refine Or.inr ⟨by positivity, ?_⟩
      have : ((n : Int) + 1).toNat = n + 1 := by omega
      rw [this]
      exact h
    · exact ih

/-- Every display row the wrap loop emits before its last one is at most
`width` characters (a failed copy emits no characters at all); only the
final row of a line can exceed the width, via the whole-remainder branch.
The no-leading-space hypothesis reflects the trim `_windowLinesWrap`
performs on each line before segmenting it (a trimmed line containing any
non-space starts with a non-space), and rules out the `end = -1` path of
the copy. -/
theorem wrapGo_dropLast_le (s : List Char) (w : Int) (hw : 1 ≤ w)
    (hhead : s.get? 0 ≠ some ' ') :
    ∀ fuel : Nat, ∀ cp : Int, 0 ≤ cp →
      ∀ x ∈ (wrapGo s w fuel cp).dropLast, ∀ t, x = some t → (t.length : Int) ≤ w := by
  intro fuel
  induction fuel with
  | zero =>
    intro cp h0 x hx
    simp [wrapGo] at hx
  | succ n ih =>
    intro cp h0 x hx t hxt
    by_cases hcp : cp < (s.length : Int)
    · rw [show wrapGo s w (n + 1) cp =
          (let j := stringFindFirstSpace s (cp + w)
           let e : Int := if j = -1 ∨ j < cp then (s.length : Int) else j - 1
           stringCopyNBytes s cp e :: wrapGo s w n (e + 2)) from by
        simp [wrapGo, hcp]] at hx
      simp only [] at hx
      set j := stringFindFirstSpace s (cp + w) with hj
      set e : Int := if j = -1 ∨ j < cp then (s.length : Int) else j - 1 with he
      have he0 : 0 ≤ e + 2 := by
        by_cases hc : j = -1 ∨ j < cp
        · rw [he, if_pos hc]
          omega
        · rw [he, if_neg hc]
          push_neg at hc
          omega
      cases hrest : wrapGo s w n (e + 2) with
      | nil =>
        rw [hrest] at hx
        simp at hx
      | cons y ys =>
        rw [hrest] at hx
        rw [List.dropLast_cons_of_ne_nil (by simp)] at hx
        rcases List.mem_cons.mp hx with hxe | hxr
        · -- x is the head segment; since the loop continued, this was a
          -- space break, so the segment has at most w characters
          have hlt : e + 2 < (s.length : Int) := by
            cases n with
            | zero =>
              rw [show wrapGo s w 0 (e + 2) = [] from rfl] at hrest
              exact absurd hrest (by simp)
            | succ m =>
              by_contra hnot
              rw [show wrapGo s w (m + 1) (e + 2) = [] from by simp [wrapGo, hnot]] at hrest
              exact absurd hrest (by simp)
          have hcnd : ¬ (j = -1 ∨ j < cp) := by
            intro hc
            rw [he, if_pos hc] at hlt
            omega
          have hee : e = j - 1 := by rw [he, if_neg hcnd]
          push_neg at hcnd
          have hjcp : cp ≤ j := hcnd.2
          have hjle : j ≤ cp + w := stringFindFirstSpace_le s (cp + w) (by omega)
          have hj1 : 1 ≤ j := by
            rcases findSpaceGo_hit s (min (cp + w) (s.length : Int)).toNat with hm | ⟨hge, hhit⟩
            · exfalso
              apply hcnd.1
              rw [hj]
              unfold stringFindFirstSpace
              have h1 : ¬ (cp + w = -1) := by omega
              have h2 : ¬ (cp + w < 0) := by omega
              simp only [h1, if_false, h2]
              exact hm
            · have hjval : j = findSpaceGo s (min (cp + w) (s.length : Int)).toNat := by
                rw [hj]
                unfold stringFindFirstSpace
                have h1 : ¬ (cp + w = -1) := by omega
                have h2 : ¬ (cp + w < 0) := by omega
                simp only [h1, if_false, h2]
              by_contra hj0
              have hjz : j = 0 := by omega
              rw [← hjval, hjz] at hhit
              simp only [Int.toNat_zero] at hhit
              unfold spaceHit at hhit
              rcases Bool.or_eq_true_iff.mp hhit with hl | hr
              · have : s.length = 0 := by
                  have := of_decide_eq_true hl
                  omega
                omega
              · exact hhead (of_decide_eq_true hr)
          by_cases hfail : cp ≥ e
          · -- the copy fails: the row write is `none`, contradicting x = some t
            have hnone : stringCopyNBytes s cp e = none := by
              unfold stringCopyNBytes
              have hb : ¬ (cp < 0 ∨ cp > (s.length : Int)) := by omega
              have hcl : ¬ (e > (s.length : Int) ∨ e = -1) := by
                push_neg
                omega
              simp only [hb, if_false, hcl, hfail, if_true]
            rw [hxe, hnone] at hxt
            exact absurd hxt (by simp)
          · push_neg at hfail
            obtain ⟨t0, ht0, hlen0⟩ := stringCopyNBytes_inner s cp e h0 hfail (by omega)
            rw [hxe, ht0] at hxt
            have : t = t0 := by injection hxt.symm
            rw [this]
            omega
        · rw [← hrest] at hxr
          exact ih (e + 2) he0 x hxr t hxt
    · simp [wrapGo, hcp] at hx
/-- A line without any space that is longer than the width is emitted whole
by the wrap loop — the source takes the entire remainder instead of
hard-cutting at the boundary. -/
theorem wrapSegments_no_space (s : List Char) (w : Int) (hw : 1 ≤ w)
    (hns : ∀ c ∈ s, c ≠ ' ') (hlen : w < (s.length : Int)) :
    wrapSegments s w = [some s] := by
  have hj : stringFindFirstSpace s (0 + w) = -1 := by
    rw [zero_add]
    unfold stringFindFirstSpace
    have h1 : ¬ (w = -1) := by omega
    have h2 : ¬ (w < 0) := by omega
    simp only [h1, if_false, h2]
    have hmin : min w (s.length : Int) = w := by omega
    rw [hmin]
    apply findSpaceGo_no_space s hns
    omega
  have hcp : (0 : Int) < (s.length : Int) := by omega
  have hcopy : stringCopyNBytes s 0 (s.length : Int) = some s := by
    unfold stringCopyNBytes
    have hb : ¬ ((0 : Int) < 0 ∨ (0 : Int) > (s.length : Int)) := by omega
    have hcl : ¬ ((s.length : Int) > (s.length : Int) ∨ (s.length : Int) = -1) := by omega
    have hge : ¬ ((0 : Int) ≥ (s.length : Int)) := by omega
    simp only [hb, if_false, hcl, hge, if_true]
    simp
  have htail : wrapGo s w s.length ((s.length : Int) + 2) = [] := by
    cases hsl : s.length with
    | zero => rfl
    | succ m =>
      have hno : ¬ ((s.length : Int) + 2 < (s.length : Int)) := by omega
      simp [wrapGo, hno]
      omega
  unfold wrapSegments
  rw [show wrapGo s w (s.length + 1) 0 =
      (let j := stringFindFirstSpace s (0 + w)
       let e : Int := if j = -1 ∨ j < 0 then (s.length : Int) else j - 1
       stringCopyNBytes s 0 e :: wrapGo s w s.length (e + 2)) from by
    simp [wrapGo, hcp]]
  simp only [hj, true_or, if_true]
  rw [hcopy, htail]
/-- C1: completing the current phase increments its completed count; a study
phase additionally increments the session study-phase counter and folds the
phase-elapsed time into `previousElapsed`; then, when `repetitions > 0` and
the completed count has reached `repetitions`, `completed` resets to 0 and
the current phase becomes `nextAfter` (study → long break), otherwise the
current phase becomes `next` (study → short break, either break → study);
finally the new phase's start timestamp is set to now.  In particular a
break phase (`repetitions = 0`) always moves to `next` and never
dereferences its NULL `nextAfter`. -/
theorem C1_next_phase_transition (sessions now : Int) (p : TimerState)
    (hs : 0 ≤ sessions) :
    ∃ q : TimerState, nextPhase sessions now p = some q
      ∧ q.studyPhases =
          (if phaseIsStudy p.currentPhase then p.studyPhases + 1 else p.studyPhases)
      ∧ q.previousElapsed =
          (if phaseIsStudy p.currentPhase then p.previousElapsed + p.phaseElapsed
           else p.previousElapsed)
      ∧ (if 0 < phaseRepetitions sessions p.currentPhase ∧
            phaseRepetitions sessions p.currentPhase ≤ p.completed p.currentPhase + 1
         then q.completed p.currentPhase = 0
            ∧ phaseNextAfter p.currentPhase = some q.currentPhase
         else q.completed p.currentPhase = p.completed p.currentPhase + 1
            ∧ q.currentPhase = phaseNext p.currentPhase)
      ∧ q.started q.currentPhase = now := by
  rcases p with ⟨cur, comp, stt, sp, pe, se, prev⟩
  cases cur with
  | study =>
    simp only [nextPhase, phaseRepetitions, phaseIsStudy, phaseNextAfter, phaseNext,
      Function.update_same, if_true]
    split
    · rename_i hc
      obtain ⟨hc1, hc2⟩ := hc
      refine ⟨_, rfl, by simp, by simp, ?_, by simp [Function.update_same]⟩
      rw [if_pos (show 0 < sessions ∧ sessions ≤ comp PhaseId.study + 1 by omega)]
      exact ⟨by simp [Function.update_same], rfl⟩
    · rename_i hc
      rw [not_and_or] at hc
      refine ⟨_, rfl, by simp, by simp, ?_, by simp [Function.update]⟩
      rw [if_neg (show ¬ (0 < sessions ∧ sessions ≤ comp PhaseId.study + 1) by
        push_neg at hc ⊢
        intro hpos
        rcases hc with h | h
        · omega
        · omega)]
      exact ⟨by simp [Function.update], rfl⟩
  | shortBreak =>
    simp only [nextPhase, phaseRepetitions, phaseIsStudy, phaseNextAfter, phaseNext,
      Function.update_same]
    rw [if_neg (by simp)]
    refine ⟨_, rfl, by simp, by simp, ?_, by simp [Function.update]⟩
    rw [if_neg (by simp)]
    exact ⟨by simp [Function.update_same], rfl⟩
  | longBreak =>
    simp only [nextPhase, phaseRepetitions, phaseIsStudy, phaseNextAfter, phaseNext,
      Function.update_same]
    rw [if_neg (by simp)]
    refine ⟨_, rfl, by simp, by simp, ?_, by simp [Function.update]⟩
    rw [if_neg (by simp)]
    exact ⟨by simp [Function.update_same], rfl⟩

/-- A study-phase session state about to hit the repetition limit:
`repetitions = 4` will be supplied, `completed = 3` before completion. -/
def c1ExampleState : TimerState :=
  { currentPhase := .study
    completed := fun ph => if ph = .study then 3 else 0
    started := fun _ => 0
    studyPhases := 7
    phaseElapsed := 1500
    studyElapsed := 9000
    previousElapsed := 7500 }

theorem C1_next_phase_transition_witness :
    ∃ q : TimerState, nextPhase 4 123 c1ExampleState = some q
      ∧ q.studyPhases =
          (if phaseIsStudy c1ExampleState.currentPhase then c1ExampleState.studyPhases + 1
           else c1ExampleState.studyPhases)
      ∧ q.previousElapsed =
          (if phaseIsStudy c1ExampleState.currentPhase then
            c1ExampleState.previousElapsed + c1ExampleState.phaseElapsed
           else c1ExampleState.previousElapsed)
      ∧ (if 0 < phaseRepetitions 4 c1ExampleState.currentPhase ∧
            phaseRepetitions 4 c1ExampleState.currentPhase ≤
              c1ExampleState.completed c1ExampleState.currentPhase + 1
         then q.completed c1ExampleState.currentPhase = 0
            ∧ phaseNextAfter c1ExampleState.currentPhase = some q.currentPhase
         else q.completed c1ExampleState.currentPhase =
              c1ExampleState.completed c1ExampleState.currentPhase + 1
            ∧ q.currentPhase = phaseNext c1ExampleState.currentPhase)
      ∧ q.started q.currentPhase = 123 :=
  C1_next_phase_transition 4 123 c1ExampleState (by decide)

/-- C2 (counterexample): on a 10-character line without spaces and width 5,
`_windowLinesWrap` emits the whole line as one 10-character segment instead
of hard-cutting at the width boundary as the spec's greedy reference does,
so an emitted segment exceeds `maxWidth`. -/
theorem C2_wrap_counterexample :
    wrapLine ("abcdefghij".toList) 5 = [some ("abcdefghij".toList)]
    ∧ greedyWrapSpec ("abcdefghij".toList) 5 = ["abcde".toList, "fghij".toList]
    ∧ (("abcdefghij".toList).length : Int) > 5
    ∧ wrapLine ("abcdefghij".toList) 5 ≠
        (greedyWrapSpec ("abcdefghij".toList) 5).map some := by decide

/-- C2 (amended): for a positive width and a line not beginning with a space
(which is what the preceding trim establishes for any line containing a
non-space), every segment the wrap loop emits before the last one is at
most `maxWidth` characters — those segments break at the last space at or
before the width boundary, excluding the space, with scanning resuming
after it; but when no space exists in the range at or after the current
position, the entire remainder of the line is emitted as the final segment
(not hard-cut at the boundary), so that final segment may exceed
`maxWidth`. -/
theorem C2_wrap_greedy_amended (s : List Char) (w : Int) (hw : 1 ≤ w)
    (hhead : s.get? 0 ≠ some ' ') :
    (∀ x ∈ (wrapSegments s w).dropLast, ∀ t, x = some t → (t.length : Int) ≤ w)
    ∧ ((∀ c ∈ s, c ≠ ' ') → w < (s.length : Int) → wrapSegments s w = [some s]) := by
  constructor
  · exact wrapGo_dropLast_le s w hw hhead (s.length + 1) 0 le_rfl
  · intro hns hlen
    exact wrapSegments_no_space s w hw hns hlen

theorem C2_wrap_greedy_amended_witness :
    (∀ x ∈ (wrapSegments ("press S to skip".toList) 7).dropLast, ∀ t, x = some t →
        (t.length : Int) ≤ 7)
    ∧ ((∀ c ∈ "press S to skip".toList, c ≠ ' ') →
        (7 : Int) < (("press S to skip".toList).length : Int) →
        wrapSegments ("press S to skip".toList) 7 = [some ("press S to skip".toList)]) :=
  C2_wrap_greedy_amended ("press S to skip".toList) 7 (by decide) (by decide)

/-- A saved session state whose current phase is the short break (id 1),
with two completions recorded on it. -/
def c3SavedState : TimerState :=
  { currentPhase := .shortBreak
    completed := fun ph => if ph = .shortBreak then 2 else 1
    started := fun _ => 1000
    studyPhases := 3
    phaseElapsed := 30
    studyElapsed := 300
    previousElapsed := 250 }

/-- The fresh state the scheduler starts from before loading
(`init_parameters` / `set_initial_phase`: study phase current, all counters
zero). -/
def c3FreshState : TimerState :=
  { currentPhase := .study
    completed := fun _ => 0
    started := fun _ => 0
    studyPhases := 0
    phaseElapsed := 0
    studyElapsed := 0
    previousElapsed := 0 }

/-- C3 (code bug): saving a short-break session state and loading it back on
the same date does not round-trip — `load_savefile`'s phase lookup has its
`return -6` inside the loop body, so the saved id 1 aborts the load with
`-6`: the current phase stays the study phase and the break's completed
count is not restored, although the save correctly recorded id 1 and
completed 2. -/
theorem C3_saveload_roundtrip_bug :
    (saveSavefile c3SavedState).phaseId = 1
    ∧ (saveSavefile c3SavedState).completed = 2
    ∧ (loadSavefile (saveSavefile c3SavedState) c3FreshState).1 = -6
    ∧ (loadSavefile (saveSavefile c3SavedState) c3FreshState).2.currentPhase = PhaseId.study
    ∧ (loadSavefile (saveSavefile c3SavedState) c3FreshState).2.completed PhaseId.shortBreak
        = 0 := by
  refine ⟨rfl, rfl, ?_, ?_, ?_⟩ <;> decide

/-- C4 (code bug): at exactly `MAX_LINES` stored lines the guard
`w->lines > MAX_LINES` does not fire, so `windowAddLine` writes the row
`text_buffer[MAX_LINES]` — one past the array — instead of returning the
error `-1`; strictly below capacity it appends and succeeds. -/
theorem C4_addline_capacity_bug :
    windowAddLine (List.replicate MAX_LINES ['x']) ['y'] = .oob
    ∧ windowAddLine (List.replicate MAX_LINES ['x']) ['y'] ≠ .err
    ∧ windowAddLine (List.replicate 9 ['x']) ['y'] =
        .ok (List.replicate 9 ['x'] ++ [['y']]) := by decide

/-- The controls-style line used to overflow the wrap: eleven two-character
words. -/
def c5Line : List Char := "aa bb cc dd ee ff gg hh ii jj kk".toList

/-- C5 (code bug): wrapping a single buffered line of eleven two-character
words at interior width 2 (window width 6, padding 1) emits eleven
successful display-row writes, so the eleventh lands at row index 10 =
`MAX_LINES`, past the `text[MAX_LINES]` array; with `auto_height` the final
stored line count is also 11 > `MAX_LINES`.  The truncation the claim
describes happens only after the rows have been written. -/
theorem C5_wrap_overflow_bug :
    (windowLinesWrapModel [c5Line] 6 1 3 true).writes.length = 11
    ∧ MAX_LINES = 10
    ∧ (windowLinesWrapModel [c5Line] 6 1 3 true).finalLines = 11
    ∧ ∀ x ∈ (windowLinesWrapModel [c5Line] 6 1 3 true).writes, x ≠ none := by decide

/-- C6: while a dialog waits for a response, the byte sequence of the ANSI
Left arrow (ESC `[` D) always selects button index 0 and the Right arrow
(ESC `[` C) always selects index 1, whatever the prior index; Tab flips the
index between 0 and 1; Enter returns the current index unchanged; every
mask without the four handled bits leaves the index unchanged; and the
index stays in {0, 1} under every mask. -/
theorem C6_dialog_focus (a : Nat) (ha : a = 0 ∨ a = 1) :
    dialogStep (pollSpecialKeypress [27, 91, 68]) a = .cont 0
    ∧ dialogStep (pollSpecialKeypress [27, 91, 67]) a = .cont 1
    ∧ dialogStep (pollSpecialKeypress [9]) a = .cont (1 - a)
    ∧ dialogStep (pollSpecialKeypress [10]) a = .answer a
    ∧ (∀ m : Nat, m &&& 4 = 0 → m &&& 8 = 0 → m &&& 16 = 0 → m &&& 32 = 0 →
        dialogStep m a = .cont a)
    ∧ (∀ m : Nat, stepIndex (dialogStep m a) = 0 ∨ stepIndex (dialogStep m a) = 1) := by
  rcases ha with rfl | rfl
  · refine ⟨by decide, by decide, by decide, by decide, ?_, ?_⟩
    · intro m h4 h8 h16 h32
      simp [dialogStep, h4, h8, h16, h32]
    · intro m
      unfold dialogStep
      split_ifs <;> simp [stepIndex]
  · refine ⟨by decide, by decide, by decide, by decide, ?_, ?_⟩
    · intro m h4 h8 h16 h32
      simp [dialogStep, h4, h8, h16, h32]
    · intro m
      unfold dialogStep
      split_ifs <;> simp [stepIndex]

theorem C6_dialog_focus_witness :
    dialogStep (pollSpecialKeypress [27, 91, 68]) 0 = .cont 0
    ∧ dialogStep (pollSpecialKeypress [27, 91, 67]) 0 = .cont 1
    ∧ dialogStep (pollSpecialKeypress [9]) 0 = .cont (1 - 0)
    ∧ dialogStep (pollSpecialKeypress [10]) 0 = .answer 0
    ∧ (∀ m : Nat, m &&& 4 = 0 → m &&& 8 = 0 → m &&& 16 = 0 → m &&& 32 = 0 →
        dialogStep m 0 = .cont 0)
    ∧ (∀ m : Nat, stepIndex (dialogStep m 0) = 0 ∨ stepIndex (dialogStep m 0) = 1) :=
  C6_dialog_focus 0 (Or.inl rfl)

/-- C7 (counterexample): after ESC `[`, not every byte outside 0x41..0x44
yields "no key" with the machine discarding the sequence and returning to
idle.  Byte 0x09 hits the plain-key branch and yields the Tab key (mask 16,
not "no key"); and byte 0x1B re-enters the first escape branch, which only
sets bits of `status`, so the machine stays escaped: a following C (0x43)
then emits the Right mask 4, whereas a fresh idle scan of C alone emits
nothing. -/
theorem C7_arrow_decode_counterexample :
    pollSpecialKeypress [27, 91, 9] = 16
    ∧ pollSpecialKeypress [27, 91, 9] ≠ 0
    ∧ pollSpecialKeypress [27, 91, 27, 67] = 4
    ∧ pollSpecialKeypress [67] = 0 := by decide

/-- C7 (amended): from the idle state the byte sequence `0x1B 0x5B 0x43`
(ESC `[` C, the ANSI cursor-forward / Right-arrow sequence) decodes to the
mask 4, the arrow key on which the dialog selects the right-hand button
(index 1) whatever the prior focus.  And for every byte `b` that is outside
0x41..0x44 and is also none of ESC (0x1B), `[` (0x5B), tab (0x09), enter
(0x0A), space (0x20) or backspace (0x7F) — e.g. the 0x5A of the claim —
the sequence ESC `[` b yields no key (mask 0) and is discarded with the
machine back in idle: consuming further bytes after it behaves exactly like
a fresh idle scan.  (0 is excluded because `poll_keypress` returns 0 for
"no byte available", which ends the scan loop rather than being consumed
as a byte.  Bytes 0x09/0x0A/0x20/0x7F after ESC `[` emit their own named
keys instead, and ESC or `[` keep the escape state — see the
counterexample.  The source's own comments label mask 4 "left", but both
the ANSI meaning of ESC `[` C and the observable dialog behaviour identify
it as the Right key.) -/
theorem C7_arrow_key_decode_amended (b : Nat) (h0 : b ≠ 0) (h27 : b ≠ 27)
    (h91 : b ≠ 91) (harrow : ¬ (65 ≤ b ∧ b ≤ 68)) (h9 : b ≠ 9) (h10 : b ≠ 10)
    (h32 : b ≠ 32) (h127 : b ≠ 127) :
    pollSpecialKeypress [27, 91, 67] = 4
    ∧ dialogStep 4 0 = .cont 1
    ∧ dialogStep 4 1 = .cont 1
    ∧ pollSpecialKeypress [27, 91, b] = 0
    ∧ (∀ k : List Nat, pollSpecialKeypress (27 :: 91 :: b :: k) = pollSpecialKeypress k) := by
  have hstep : ∀ k : List Nat, pollSpecialGo (b :: k) 3 0 = pollSpecialGo k 0 0 := by
    intro k
    have h2 : ¬ (b = 91 ∧ (3 : Nat) &&& 1 ≠ 0) := fun h => h91 h.1
    have h3 : ¬ (65 ≤ b ∧ b ≤ 68 ∧ (3 : Nat) &&& 2 ≠ 0) := fun h => harrow ⟨h.1, h.2.1⟩
    simp only [pollSpecialGo, if_neg h0, if_neg h27, if_neg h2, if_neg h3, if_neg h9,
      if_neg h10, if_neg h32, if_neg h127]
    norm_num
  refine ⟨by decide, by decide, by decide, ?_, ?_⟩
  · show pollSpecialGo [b] 3 0 = 0
    rw [hstep []]
    rfl
  · intro k
    show pollSpecialGo (b :: k) 3 0 = pollSpecialKeypress k
    rw [hstep k]
    rfl

theorem C7_arrow_key_decode_amended_witness :
    pollSpecialKeypress [27, 91, 67] = 4
    ∧ dialogStep 4 0 = .cont 1
    ∧ dialogStep 4 1 = .cont 1
    ∧ pollSpecialKeypress [27, 91, 90] = 0
    ∧ (∀ k : List Nat, pollSpecialKeypress (27 :: 91 :: 90 :: k) = pollSpecialKeypress k) :=
  C7_arrow_key_decode_amended 90 (by decide) (by decide) (by decide) (by decide) (by decide)
    (by decide) (by decide) (by decide)

/-- C8 (counterexample): the gray triple (2, 2, 2) converts to HSL (0, 0, 0)
— the lightness `2/255·100 ≈ 0.78` truncates to 0 — and back to (0, 0, 0),
so a channel differs from the original by 2, not at most 1. -/
theorem C8_color_roundtrip_counterexample :
    RGBtoHSL ⟨2, 2, 2⟩ = ⟨0, 0, 0⟩
    ∧ HSLtoRGB (RGBtoHSL ⟨2, 2, 2⟩) = ⟨0, 0, 0⟩
    ∧ ((2 : Int) - (HSLtoRGB (RGBtoHSL ⟨2, 2, 2⟩)).R).natAbs = 2
    ∧ ¬ (((2 : Int) - (HSLtoRGB (RGBtoHSL ⟨2, 2, 2⟩)).R).natAbs ≤ 1) := by decide

set_option maxRecDepth 10000 in
/-- C8 (amended): the ±1 round-trip bound fails (see the counterexample);
what holds on the achromatic triples — where the loss is exactly the
100-level quantization of the lightness — is a ±3 bound per channel,
attained e.g. at gray 130. -/
theorem C8_gray_roundtrip_amended :
    ∀ g : Fin 256,
      ((HSLtoRGB (RGBtoHSL ⟨(g : Int), (g : Int), (g : Int)⟩)).R - (g : Int)).natAbs ≤ 3
      ∧ ((HSLtoRGB (RGBtoHSL ⟨(g : Int), (g : Int), (g : Int)⟩)).G - (g : Int)).natAbs ≤ 3
      ∧ ((HSLtoRGB (RGBtoHSL ⟨(g : Int), (g : Int), (g : Int)⟩)).B - (g : Int)).natAbs ≤ 3 := by
  decide

/-- C10 (code bug): `_stringLength` on the empty string goes out of bounds
— its scan starts at index 1 of a 1-byte buffer — and can never return 0
(any NUL it finds is at an index ≥ 1); consequently the whole-string copy
`windowAddLine` performs for an empty line fails rather than storing an
empty line.  On any nonempty string the scan is in bounds and correct
(see `cStringLength_eq_length`). -/
theorem C10_empty_string_scan :
    cStringLength [] = none
    ∧ cStringLength ['a'] = some 1
    ∧ stringCopy [] = none := by decide
